import Mathlib

/-!
# SafeSpace backend — verification development

Shallow embedding of the SafeSpace moderation backend
(`backend/utils/moderation.py` and `backend/app.py`) and proofs of the
specification's claims about it.

Modelling conventions:
* Python strings are modelled as lists of Unicode code points (`Str := List Nat`);
  `pstr` converts a Lean string literal to this representation.
* `str.lower()` is modelled per code point on the ASCII range (all taxonomy
  phrases are ASCII); `str.strip()` drops ASCII whitespace from both ends.
* Python's `in` (substring test) is modelled by list-infix containment.
* Timestamps and durations are integers (seconds); each operation that reads
  the clock takes the current time `now` as an explicit argument.
* Dictionaries with fixed key sets are association lists in insertion order.
-/

/-- Python strings, as lists of Unicode code points. -/
abbrev Str := List Nat

/-- Convert a Lean string literal to the code-point representation. -/
def pstr (s : String) : Str := s.data.map Char.toNat

/-- `str.lower()` on one code point (ASCII range, as in the taxonomy). -/
def lowerChar (n : Nat) : Nat := if 65 ≤ n ∧ n ≤ 90 then n + 32 else n

/-- ASCII whitespace, as stripped by `str.strip()`. -/
def isWsChar (n : Nat) : Bool :=
  decide (n = 32 ∨ n = 9 ∨ n = 10 ∨ n = 13 ∨ n = 11 ∨ n = 12)

/-- `str.lower()`. -/
def pyLower (l : Str) : Str := l.map lowerChar

/-- `str.strip()`: drop whitespace from both ends. -/
def pyStrip (l : Str) : Str :=
  ((l.dropWhile isWsChar).reverse.dropWhile isWsChar).reverse

/-- Python's `needle in haystack` substring test. -/
def pyIn (needle haystack : Str) : Bool := decide (needle <:+: haystack)

/-- `KEYWORD_CATEGORIES` from `backend/utils/moderation.py`: category name →
list of trigger phrases, in source (insertion) order. -/
def KEYWORD_CATEGORIES : List (String × List Str) := [
  ("self-harm", [
    pstr "kill myself",
    pstr "suicide",
    pstr "hurt myself",
    pstr "end my life",
    pstr "self harm",
    pstr "cut myself",
    pstr "i want to die"]),
  ("violence", [
    pstr "kill you",
    pstr "kill them",
    pstr "build a bomb",
    pstr "make a bomb",
    pstr "shoot up",
    pstr "murder",
    pstr "stab you",
    pstr "beat you",
    pstr "burn down"]),
  ("hate", [
    pstr "hate crime",
    pstr "genocide",
    pstr "racial slur",
    pstr "kill all",
    pstr "lynch",
    pstr "deport them",
    pstr "inferior race"]),
  ("profanity", [
    pstr "fuck you",
    pstr "shithead",
    pstr "motherfucker",
    pstr "bastard",
    pstr "asshole",
    pstr "bitch",
    pstr "dickhead",
    pstr "cunt",
    pstr "son of a bitch",
    pstr "slut",
    pstr "whore"]),
  ("sexual", [
    pstr "sexual assault",
    pstr "rape",
    pstr "child porn",
    pstr "grooming",
    pstr "explicit sex",
    pstr "force you"]),
  ("harassment", [
    pstr "i will find you",
    pstr "dox you",
    pstr "i will ruin you",
    pstr "stalk you",
    pstr "keep calling you",
    pstr "harass you"]),
  ("drugs", [
    pstr "sell drugs",
    pstr "cocaine",
    pstr "heroin",
    pstr "meth lab",
    pstr "cook meth",
    pstr "buy weed"]),
  ("weapons", [
    pstr "buy a gun",
    pstr "illegal gun",
    pstr "assault rifle",
    pstr "ghost gun",
    pstr "buy explosives",
    pstr "weapon cache"]),
  ("terrorism", [
    pstr "join isis",
    pstr "terror attack",
    pstr "blow up",
    pstr "jihad attack",
    pstr "martyr mission"]),
  ("bullying", [
    pstr "kill yourself",
    pstr "nobody likes you",
    pstr "you should die",
    pstr "loser forever",
    pstr "go die"])]

/-- `_normalize`: `(text or "").strip().lower()`. A `none` argument models a
Python `None`/absent text, which `or ""` turns into the empty string. -/
def pyNormalize (text : Option Str) : Str := pyLower (pyStrip (text.getD []))

/-- `_find_matches`: the categories whose keyword list has a member contained
in the normalized text.  (The Python set of names is modelled as the sub-list
of matching entries' names, which has the same membership.) -/
def find_matches (normalized_text : Str) : List String :=
  (KEYWORD_CATEGORIES.filter
    (fun ck => ck.2.any (fun keyword => pyIn keyword normalized_text))).map Prod.fst

/-- Return value of `check_message_safety`: the `{"flagged": …, "categories": …}`
dictionary. -/
structure ModerationResult where
  flagged : Bool
  categories : List (String × Bool)
deriving DecidableEq, Repr

/-- `check_message_safety` from `backend/utils/moderation.py`. -/
def check_message_safety (text : Option Str) : ModerationResult :=
  let normalized := pyNormalize text
  if normalized = [] then
    { flagged := false
      categories := KEYWORD_CATEGORIES.map (fun ck => (ck.1, false)) }
  else
    let matched := find_matches normalized
    { flagged := !matched.isEmpty
      categories := KEYWORD_CATEGORIES.map (fun ck => (ck.1, matched.contains ck.1)) }

/-- Lexicographic comparison of code-point strings, as Python `sorted` orders
them. -/
def lexLe : Str → Str → Bool
  | [], _ => true
  | _ :: _, [] => false
  | a :: as, b :: bs => decide (a < b) || (decide (a = b) && lexLe as bs)

/-- Sorted insertion with respect to `lexLe`. -/
def insertSorted (x : Str) : List Str → List Str
  | [] => [x]
  | y :: ys => if lexLe x y then x :: y :: ys else y :: insertSorted x ys

/-- Insertion sort with respect to `lexLe`; Python's `sorted` applied to a set
of distinct strings yields exactly this sorted arrangement. -/
def sortStrs (l : List Str) : List Str := l.foldr insertSorted []

/-- `get_all_keywords`: normalized union of all phrase lists, deduplicated,
sorted. -/
def get_all_keywords : List Str :=
  sortStrs ((((KEYWORD_CATEGORIES.map Prod.snd).flatten.map
      (fun k => pyLower (pyStrip k))).filter (fun k => k ≠ [])).dedup)

/-- Boolean check that a list of strings is sorted with respect to `lexLe`. -/
def isSortedStrs : List Str → Bool
  | [] => true
  | [_] => true
  | x :: y :: rest => lexLe x y && isSortedStrs (y :: rest)

/-! ## Application state (`backend/app.py`)

The module-level mutable globals of `app.py` are gathered into one `AppState`
record; every handler becomes a function from (state, request data, current
time) to (response, state).  The single `_stats_lock` serializes all handlers,
so the sequential state-passing semantics below is exactly the observable
behaviour. -/

/-- One entry of `_message_history`. -/
structure HistEntry where
  user : Str
  flagged : Bool
  timestamp : Int
deriving DecidableEq, Repr

/-- One entry of `_flagged_messages`. -/
structure FlaggedEntry where
  user : Str
  text : Str
  categories : List (String × Bool)
  timestamp : Int
deriving DecidableEq, Repr

/-- The `_focus_state` dictionary. -/
structure FocusState where
  active : Bool
  started_at : Option Int
  blocked_sites : List Str
  total_focus_time : Int
deriving DecidableEq, Repr

/-- All module-level mutable state of `app.py`. -/
structure AppState where
  total_messages : Nat
  flagged_messages : Nat
  active_users : List Str
  flagged_history : List FlaggedEntry
  message_history : List HistEntry
  focus : FocusState
deriving DecidableEq, Repr

/-- The globals at process start. -/
def initialState : AppState :=
  { total_messages := 0
    flagged_messages := 0
    active_users := []
    flagged_history := []
    message_history := []
    focus := { active := false, started_at := none, blocked_sites := [], total_focus_time := 0 } }

/-- `_FLAGGED_HISTORY_LIMIT`. -/
def _FLAGGED_HISTORY_LIMIT : Nat := 200

/-- Insert into the `_active_users` set (modelled as a duplicate-free list). -/
def setAdd (l : List Str) (x : Str) : List Str := if x ∈ l then l else l ++ [x]

/-- The `_message_history` entry built by `_update_usage_stats`
(`user or "unknown"`). -/
def mkHistEntry (user : Str) (flagged : Bool) (now : Int) : HistEntry :=
  { user := if user = [] then pstr "unknown" else user
    flagged := flagged
    timestamp := now }

/-- `_update_usage_stats`: bump counters, remember the user, append to the
bounded (1000) message history. -/
def update_usage_stats (s : AppState) (user : Str) (flagged : Bool) (now : Int) : AppState :=
  let s := { s with total_messages := s.total_messages + 1 }
  let s := if flagged then { s with flagged_messages := s.flagged_messages + 1 } else s
  let s := if user ≠ [] then { s with active_users := setAdd s.active_users user } else s
  let hist := s.message_history ++ [mkHistEntry user flagged now]
  { s with message_history := if hist.length > 1000 then hist.tail else hist }

/-- The `_flagged_messages` entry built by `_record_flagged_message`. -/
def mkFlaggedEntry (user text : Str) (categories : List (String × Bool)) (now : Int) :
    FlaggedEntry :=
  { user := if user = [] then pstr "unknown" else user
    text := text
    categories := categories
    timestamp := now }

/-- `_record_flagged_message`: append to the bounded (200) flagged log,
evicting the oldest entry past the limit. -/
def record_flagged_message (s : AppState) (user text : Str)
    (categories : List (String × Bool)) (now : Int) : AppState :=
  let fh := s.flagged_history ++ [mkFlaggedEntry user text categories now]
  { s with flagged_history := if fh.length > _FLAGGED_HISTORY_LIMIT then fh.tail else fh }

/-- Return value of `_focus_status_snapshot`. -/
structure FocusStatus where
  active : Bool
  started_at : Option Int
  duration_seconds : Int
  blocked_sites : List Str
deriving DecidableEq, Repr

/-- `_focus_status_snapshot`: accumulated focus time plus, when active, the
time elapsed since `started_at`. -/
def focus_status_snapshot (s : AppState) (now : Int) : FocusStatus :=
  let elapsed : Int :=
    match s.focus.active, s.focus.started_at with
    | true, some t => now - t
    | _, _ => 0
  { active := s.focus.active
    started_at := s.focus.started_at
    duration_seconds := s.focus.total_focus_time + elapsed
    blocked_sites := s.focus.blocked_sites }

/-- Response of the `/stats` endpoint. -/
structure StatsResponse where
  total_messages : Nat
  flagged_messages : Nat
  active_users : Nat
  flagged_recent : Nat
  focus_active : Bool
  focus_duration_seconds : Int
deriving DecidableEq, Repr

/-- The `/stats` handler: note that the reported message counts are derived
from the bounded `_message_history`, not from the `_usage_stats` counters. -/
def stats (s : AppState) (now : Int) : StatsResponse :=
  { total_messages := s.message_history.length
    flagged_messages := (s.message_history.filter (fun e => e.flagged)).length
    active_users := s.active_users.length
    flagged_recent := s.flagged_history.length
    focus_active := s.focus.active
    focus_duration_seconds := (focus_status_snapshot s now).duration_seconds }

/-- HTTP response of the `/moderate` handler: 200 with the moderation result,
or 503 with an error message. -/
inductive ModerateResponse where
  | ok (result : ModerationResult)
  | err (msg : Str)
deriving DecidableEq, Repr

/-- HTTP status code of a `/moderate` response. -/
def statusCode : ModerateResponse → Nat
  | .ok _ => 200
  | .err _ => 503

/-- `payload.get("user") or "api"`. -/
def userOrApi (user : Option Str) : Str :=
  match user with
  | some u => if u = [] then pstr "api" else u
  | none => pstr "api"

/-- The `/moderate` handler.  The safety checker is passed as an argument so
that both its success and its `ModerationError` outcome are covered; in the
running program it is always `realChecker` below. -/
def moderate (checker : Option Str → Except Str ModerationResult) (s : AppState)
    (payloadText payloadUser : Option Str) (now : Int) : ModerateResponse × AppState :=
  let text := payloadText.getD []
  match checker (some text) with
  | .error e => (.err e, s)
  | .ok r =>
    let user := userOrApi payloadUser
    let s := if r.flagged then record_flagged_message s user text r.categories now else s
    let s := update_usage_stats s user r.flagged now
    (.ok r, s)

/-- The actual safety checker of the repository: `check_message_safety` never
raises, so it always returns `Except.ok`. -/
def realChecker (t : Option Str) : Except Str ModerationResult :=
  .ok (check_message_safety t)

/-- The `/focus/start` handler (state part): activate if inactive, and replace
`blocked_sites` by the deduplicated lower-cased input. -/
def focus_start (s : AppState) (sites : List Str) (now : Int) : AppState :=
  let f := s.focus
  let f := if !f.active then { f with started_at := some now, active := true } else f
  { s with focus := { f with blocked_sites := (sites.map pyLower).dedup } }

/-- The `/focus/stop` handler (state part): fold the elapsed time into
`total_focus_time`, then clear `active` and `started_at`. -/
def focus_stop (s : AppState) (now : Int) : AppState :=
  let f := s.focus
  let f :=
    match f.active, f.started_at with
    | true, some t => { f with total_focus_time := f.total_focus_time + (now - t) }
    | _, _ => f
  { s with focus := { f with active := false, started_at := none } }

/-- A sequence of `/moderate` requests `(text?, user?)`, run in order
(the lock serializes them); timestamps are irrelevant to the counters and
fixed to 0. -/
def runRequests (s : AppState) : List (Option Str × Option Str) → AppState
  | [] => s
  | (t, u) :: rest => runRequests (moderate realChecker s t u 0).2 rest

/-- Whether a `/moderate` request gets flagged by the checker. -/
def reqFlagged (r : Option Str × Option Str) : Bool :=
  (check_message_safety (some (r.1.getD []))).flagged

/-! ## Safety-checker lemmas -/

/-- The taxonomy's category names are pairwise distinct. -/
theorem keywordCategories_keys_nodup : (KEYWORD_CATEGORIES.map Prod.fst).Nodup := by decide

/-- In an association list with duplicate-free keys, a key determines its value. -/
theorem mem_assoc_unique {l : List (String × List Str)} (h : (l.map Prod.fst).Nodup)
    {a : String} {b₁ b₂ : List Str} (h₁ : (a, b₁) ∈ l) (h₂ : (a, b₂) ∈ l) : b₁ = b₂ := by
  induction l with
  | nil => cases h₁
  | cons x xs ih =>
    simp only [List.map_cons, List.nodup_cons] at h
    rcases List.mem_cons.mp h₁ with h₁ | h₁ <;> rcases List.mem_cons.mp h₂ with h₂ | h₂
    · have : (a, b₁) = (a, b₂) := h₁.trans h₂.symm
      exact ((Prod.mk.injEq _ _ _ _).mp this).2
    · rw [← h₁] at h
      exact absurd (List.mem_map.mpr ⟨(a, b₂), h₂, rfl⟩) h.1
    · rw [← h₂] at h
      exact absurd (List.mem_map.mpr ⟨(a, b₁), h₁, rfl⟩) h.1
    · exact ih h.2 h₁ h₂

/-- `_find_matches` contains a category iff one of that category's phrases is
contained in the text. -/
theorem find_matches_contains {c : String} {kws : List Str}
    (hmem : (c, kws) ∈ KEYWORD_CATEGORIES) (n : Str) :
    (find_matches n).contains c = kws.any (fun k => pyIn k n) := by
  rw [Bool.eq_iff_iff]
  constructor
  · intro hc
    have hmemc : c ∈ find_matches n := by
      simpa [List.contains, List.elem_iff] using hc
    unfold find_matches at hmemc
    rcases List.mem_map.mp hmemc with ⟨ck, hck, hfst⟩
    rcases List.mem_filter.mp hck with ⟨hckKC, hp⟩
    obtain ⟨c', kws'⟩ := ck
    simp only at hfst
    subst hfst
    have : kws' = kws := mem_assoc_unique keywordCategories_keys_nodup hckKC hmem
    rwa [this] at hp
  · intro hany
    have hfil : (c, kws) ∈ KEYWORD_CATEGORIES.filter
        (fun ck => ck.2.any (fun keyword => pyIn keyword n)) :=
      List.mem_filter.mpr ⟨hmem, hany⟩
    have hc : c ∈ find_matches n := by
      unfold find_matches
      exact List.mem_map.mpr ⟨(c, kws), hfil, rfl⟩
    simpa [List.contains, List.elem_iff] using hc

/-- `List.any_map` generalized across types. -/
theorem any_map_comp {α β : Type} (f : α → β) (p : β → Bool) (l : List α) :
    (l.map f).any p = l.any (p ∘ f) := by
  induction l with
  | nil => rfl
  | cons x xs ih => simp [ih]

/-- The flag is up iff some listed category matched. -/
theorem find_matches_isEmpty (n : Str) :
    (!(find_matches n).isEmpty) =
      KEYWORD_CATEGORIES.any (fun ck => (find_matches n).contains ck.1) := by
  rcases hm : find_matches n with _ | ⟨c, rest⟩
  · simp [List.contains]
  · have hcmem : c ∈ find_matches n := by rw [hm]; exact List.mem_cons_self _ _
    unfold find_matches at hcmem
    rcases List.mem_map.mp hcmem with ⟨ck, hckf, hfst⟩
    have hckKC : ck ∈ KEYWORD_CATEGORIES := (List.mem_filter.mp hckf).1
    have hcont : ((c :: rest).contains ck.1) = true := by
      simp only [List.contains, List.elem_iff]
      rw [hfst]; exact List.mem_cons_self _ _
    simp only [List.isEmpty_cons, Bool.not_false]
    exact (List.any_eq_true.mpr ⟨ck, hckKC, hcont⟩).symm

/-! ## Claims about the safety checker -/

/-- C2 (amended): for every input whose normalized form is non-empty, each
category is marked true iff the normalized text contains one of that
category's phrases as a literal substring (plain containment, no word
boundaries).  Embedded occurrences count exactly when the phrase is literally
contained; "unkillmyselfable" does not contain the phrase "kill myself"
(the space is missing), so it is not an instance. -/
theorem checkSafety_categories_iff_substring (t : Option Str)
    (h : pyNormalize t ≠ []) :
    (check_message_safety t).categories =
      KEYWORD_CATEGORIES.map
        (fun ck => (ck.1, ck.2.any (fun k => pyIn k (pyNormalize t)))) := by
  simp only [check_message_safety, if_neg h]
  exact List.map_congr_left (fun ck hck => by
    rcases ck with ⟨c, kws⟩
    exact congrArg (Prod.mk c) (find_matches_contains hck _))

/-- Witness for `checkSafety_categories_iff_substring` at the concrete input
"Bastardly " (an embedded, differently-cased occurrence of "bastard"). -/
theorem checkSafety_categories_iff_substring_witness :
    pyNormalize (some (pstr "Bastardly ")) ≠ [] ∧
    (check_message_safety (some (pstr "Bastardly "))).categories =
      KEYWORD_CATEGORIES.map
        (fun ck => (ck.1, ck.2.any (fun k => pyIn k (pyNormalize (some (pstr "Bastardly ")))))) :=
  ⟨by decide, checkSafety_categories_iff_substring _ (by decide)⟩

/-- C2 counterexample: the claim's example input "unkillmyselfable" does NOT
contain the phrase "kill myself" as a substring (the phrase has a space), so
`check_message_safety` leaves "self-harm" false and does not flag it, contrary
to the claim's assertion about that input. -/
theorem checkSafety_unkillmyselfable_not_flagged :
    pyIn (pstr "kill myself") (pyNormalize (some (pstr "unkillmyselfable"))) = false ∧
    (check_message_safety (some (pstr "unkillmyselfable"))).categories.lookup "self-harm"
      = some false ∧
    (check_message_safety (some (pstr "unkillmyselfable"))).flagged = false := by decide

/-- C3: whenever the trimmed, lower-cased input (with `None` read as the empty
string) is empty, the checker reports `flagged = false` and maps every
category to `false`. -/
theorem checkSafety_empty_input (t : Option Str) (h : pyNormalize t = []) :
    (check_message_safety t).flagged = false ∧
    (check_message_safety t).categories =
      KEYWORD_CATEGORIES.map (fun ck => (ck.1, false)) := by
  simp [check_message_safety, h]

/-- Witness for `checkSafety_empty_input` at the whitespace-only input "  \t ". -/
theorem checkSafety_empty_input_witness :
    pyNormalize (some (pstr "  \t ")) = [] ∧
    (check_message_safety (some (pstr "  \t "))).flagged = false ∧
    (check_message_safety (some (pstr "  \t "))).categories =
      KEYWORD_CATEGORIES.map (fun ck => (ck.1, false)) :=
  ⟨by decide, checkSafety_empty_input _ (by decide)⟩

/-- C4: for every input, the result carries exactly one boolean per known
category (the key list equals the taxonomy's key list, which is
duplicate-free), and `flagged` is the disjunction of the per-category
booleans. -/
theorem checkSafety_wellformed (t : Option Str) :
    (check_message_safety t).categories.map Prod.fst = KEYWORD_CATEGORIES.map Prod.fst ∧
    ((check_message_safety t).categories.map Prod.fst).Nodup ∧
    (check_message_safety t).flagged = (check_message_safety t).categories.any (fun cb => cb.2) := by
  have hkeys : ∀ (f : String × List Str → Bool),
      (KEYWORD_CATEGORIES.map (fun ck => (ck.1, f ck))).map Prod.fst
        = KEYWORD_CATEGORIES.map Prod.fst := by
    intro f; rw [List.map_map]; rfl
  by_cases hn : pyNormalize t = []
  · refine ⟨?_, ?_, ?_⟩ <;> simp only [check_message_safety, if_pos hn]
    · exact hkeys _
    · rw [hkeys _]; exact keywordCategories_keys_nodup
    · rw [any_map_comp]
      simp
  · refine ⟨?_, ?_, ?_⟩ <;> simp only [check_message_safety, if_neg hn]
    · exact hkeys _
    · rw [hkeys _]; exact keywordCategories_keys_nodup
    · rw [any_map_comp]
      exact find_matches_isEmpty (pyNormalize t)

/-- C10: `get_all_keywords` is sorted in ascending (lexicographic) order, has
no duplicates, contains the case-normalized form of every phrase of every
category exactly once, and contains nothing else. -/
theorem get_all_keywords_sorted_nodup_complete :
    isSortedStrs get_all_keywords = true ∧
    get_all_keywords.Nodup ∧
    (∀ k ∈ (KEYWORD_CATEGORIES.map Prod.snd).flatten,
      get_all_keywords.count (pyLower (pyStrip k)) = 1) ∧
    (∀ x ∈ get_all_keywords,
      x ∈ ((KEYWORD_CATEGORIES.map Prod.snd).flatten.map (fun k => pyLower (pyStrip k)))) := by
  decide

/-- Witness for `get_all_keywords_sorted_nodup_complete`: the phrase
"kill myself" appears exactly once, and the member "asshole" of the output
comes from some category's phrase list. -/
theorem get_all_keywords_sorted_nodup_complete_witness :
    get_all_keywords.count (pyLower (pyStrip (pstr "kill myself"))) = 1 ∧
    pstr "asshole" ∈ ((KEYWORD_CATEGORIES.map Prod.snd).flatten.map
      (fun k => pyLower (pyStrip k))) :=
  ⟨get_all_keywords_sorted_nodup_complete.2.2.1 (pstr "kill myself") (by decide),
   get_all_keywords_sorted_nodup_complete.2.2.2 (pstr "asshole") (by decide)⟩

/-! ## State-operation lemmas -/

/-- `_update_usage_stats` always increments `total_messages`. -/
theorem update_usage_stats_total (s : AppState) (u : Str) (f : Bool) (now : Int) :
    (update_usage_stats s u f now).total_messages = s.total_messages + 1 := by
  cases f <;> by_cases hu : u = [] <;> simp [update_usage_stats, hu]

/-- `_update_usage_stats` increments `flagged_messages` exactly on flagged
messages. -/
theorem update_usage_stats_flagged (s : AppState) (u : Str) (f : Bool) (now : Int) :
    (update_usage_stats s u f now).flagged_messages
      = s.flagged_messages + (if f then 1 else 0) := by
  cases f <;> by_cases hu : u = [] <;> simp [update_usage_stats, hu]

/-- `_update_usage_stats` leaves the flagged log alone. -/
theorem update_usage_stats_flagged_history (s : AppState) (u : Str) (f : Bool) (now : Int) :
    (update_usage_stats s u f now).flagged_history = s.flagged_history := by
  cases f <;> by_cases hu : u = [] <;> simp [update_usage_stats, hu]

/-- `_update_usage_stats` leaves the focus state alone. -/
theorem update_usage_stats_focus (s : AppState) (u : Str) (f : Bool) (now : Int) :
    (update_usage_stats s u f now).focus = s.focus := by
  cases f <;> by_cases hu : u = [] <;> simp [update_usage_stats, hu]

/-- The message history after `_update_usage_stats`: append, then evict the
oldest entry when the bound of 1000 is exceeded. -/
theorem update_usage_stats_history (s : AppState) (u : Str) (f : Bool) (now : Int) :
    (update_usage_stats s u f now).message_history
      = if (s.message_history ++ [mkHistEntry u f now]).length > 1000
        then (s.message_history ++ [mkHistEntry u f now]).tail
        else s.message_history ++ [mkHistEntry u f now] := by
  cases f <;> by_cases hu : u = [] <;> simp [update_usage_stats, hu]

/-- `_record_flagged_message` touches only the flagged log. -/
theorem record_flagged_message_others (s : AppState) (u t : Str)
    (c : List (String × Bool)) (now : Int) :
    (record_flagged_message s u t c now).total_messages = s.total_messages ∧
    (record_flagged_message s u t c now).flagged_messages = s.flagged_messages ∧
    (record_flagged_message s u t c now).message_history = s.message_history ∧
    (record_flagged_message s u t c now).active_users = s.active_users ∧
    (record_flagged_message s u t c now).focus = s.focus :=
  ⟨rfl, rfl, rfl, rfl, rfl⟩

/-- C5: the flagged-message log is a bounded FIFO queue of capacity 200:
starting from any log within the bound, recording keeps it within the bound,
below the bound it plainly appends, and at the bound it evicts exactly the
oldest entry and appends the new one (so after the 201st flagged message the
first entry is gone and the newest is last); every other state operation
leaves the log untouched. -/
theorem recordFlagged_fifo (s : AppState) (u t : Str) (c : List (String × Bool))
    (now : Int) (sites : List Str) (u' : Str) (f : Bool)
    (h : s.flagged_history.length ≤ 200) :
    (record_flagged_message s u t c now).flagged_history.length ≤ 200 ∧
    (s.flagged_history.length < 200 →
      (record_flagged_message s u t c now).flagged_history
        = s.flagged_history ++ [mkFlaggedEntry u t c now]) ∧
    (s.flagged_history.length = 200 →
      (record_flagged_message s u t c now).flagged_history
        = s.flagged_history.tail ++ [mkFlaggedEntry u t c now] ∧
      (record_flagged_message s u t c now).flagged_history.getLast?
        = some (mkFlaggedEntry u t c now)) ∧
    (update_usage_stats s u' f now).flagged_history = s.flagged_history ∧
    (focus_start s sites now).flagged_history = s.flagged_history ∧
    (focus_stop s now).flagged_history = s.flagged_history := by
  have hproj : (record_flagged_message s u t c now).flagged_history
      = if (s.flagged_history ++ [mkFlaggedEntry u t c now]).length > _FLAGGED_HISTORY_LIMIT
        then (s.flagged_history ++ [mkFlaggedEntry u t c now]).tail
        else s.flagged_history ++ [mkFlaggedEntry u t c now] := rfl
  have hfs : (focus_start s sites now).flagged_history = s.flagged_history := by
    cases hA : s.focus.active <;> simp [focus_start, hA]
  have hfp : (focus_stop s now).flagged_history = s.flagged_history := by
    rcases hA : s.focus.active with _ | _ <;> rcases hT : s.focus.started_at with _ | t0 <;>
      simp [focus_stop, hA, hT]
  rcases lt_or_eq_of_le h with hl | he
  · have hcond : ¬ ((s.flagged_history ++ [mkFlaggedEntry u t c now]).length
        > _FLAGGED_HISTORY_LIMIT) := by
      simp only [List.length_append, List.length_singleton, _FLAGGED_HISTORY_LIMIT]
      omega
    rw [hproj, if_neg hcond]
    refine ⟨?_, fun _ => rfl, fun h200 => absurd h200 (by omega), ?_, hfs, hfp⟩
    · simp only [List.length_append, List.length_singleton]; omega
    · exact update_usage_stats_flagged_history s u' f now
  · have hcond : (s.flagged_history ++ [mkFlaggedEntry u t c now]).length
        > _FLAGGED_HISTORY_LIMIT := by
      simp only [List.length_append, List.length_singleton, _FLAGGED_HISTORY_LIMIT]
      omega
    rw [hproj, if_pos hcond]
    have hne : s.flagged_history ≠ [] := by
      intro hnil; rw [hnil] at he; simp at he
    refine ⟨?_, fun hlt => absurd hlt (by omega), fun _ => ⟨?_, ?_⟩, ?_, hfs, hfp⟩
    · rw [List.tail_append_of_ne_nil hne]
      simp only [List.length_append, List.length_singleton, List.length_tail]
      omega
    · exact List.tail_append_of_ne_nil hne
    · rw [List.tail_append_of_ne_nil hne]
      simp [List.getLast?_append]
    · exact update_usage_stats_flagged_history s u' f now

/-- Witness for `recordFlagged_fifo` at the empty initial log. -/
theorem recordFlagged_fifo_witness :
    (record_flagged_message initialState [] [] [] 0).flagged_history.length ≤ 200 ∧
    (record_flagged_message initialState [] [] [] 0).flagged_history
      = initialState.flagged_history ++ [mkFlaggedEntry [] [] [] 0] :=
  ⟨(recordFlagged_fifo initialState [] [] [] 0 [] [] false (by decide)).1,
   (recordFlagged_fifo initialState [] [] [] 0 [] [] false (by decide)).2.1 (by decide)⟩

/-- C6: `focus_start` activates focus and stamps `started_at` only when focus
was inactive, leaves `started_at` unchanged when already active, and in both
cases replaces `blocked_sites` by the deduplicated lower-cased input set
(the previous sites are discarded — the last call wins). -/
theorem focusStart_behavior (s : AppState) (sites : List Str) (now : Int) :
    (focus_start s sites now).focus.blocked_sites = (sites.map pyLower).dedup ∧
    (focus_start s sites now).focus.blocked_sites.Nodup ∧
    (∀ x, x ∈ (focus_start s sites now).focus.blocked_sites ↔ ∃ y ∈ sites, x = pyLower y) ∧
    (s.focus.active = false →
      (focus_start s sites now).focus.active = true ∧
      (focus_start s sites now).focus.started_at = some now) ∧
    (s.focus.active = true →
      (focus_start s sites now).focus.active = true ∧
      (focus_start s sites now).focus.started_at = s.focus.started_at) := by
  have hbs : (focus_start s sites now).focus.blocked_sites = (sites.map pyLower).dedup := by
    cases hA : s.focus.active <;> simp [focus_start, hA]
  refine ⟨hbs, ?_, ?_, ?_, ?_⟩
  · rw [hbs]; exact List.nodup_dedup _
  · intro x
    rw [hbs, List.mem_dedup, List.mem_map]
    constructor
    · rintro ⟨y, hy, rfl⟩; exact ⟨y, hy, rfl⟩
    · rintro ⟨y, hy, rfl⟩; exact ⟨y, hy, rfl⟩
  · intro hA
    constructor <;> simp [focus_start, hA]
  · intro hA
    constructor <;> simp [focus_start, hA]

/-- Witness for `focusStart_behavior`: starting from the inactive initial
state with sites ["A.com", "a.com"]. -/
theorem focusStart_behavior_witness :
    (focus_start initialState [pstr "A.com", pstr "a.com"] 7).focus.blocked_sites
      = ([pstr "A.com", pstr "a.com"].map pyLower).dedup ∧
    (focus_start initialState [pstr "A.com", pstr "a.com"] 7).focus.active = true ∧
    (focus_start initialState [pstr "A.com", pstr "a.com"] 7).focus.started_at = some 7 :=
  ⟨(focusStart_behavior initialState [pstr "A.com", pstr "a.com"] 7).1,
   ((focusStart_behavior initialState [pstr "A.com", pstr "a.com"] 7).2.2.2.1 (by decide)).1,
   ((focusStart_behavior initialState [pstr "A.com", pstr "a.com"] 7).2.2.2.1 (by decide)).2⟩

/-- The focus-state invariant: `started_at` is set exactly when focus is
active. -/
abbrev FocusInv (f : FocusState) : Prop := f.started_at.isSome = f.active

/-- C7: the invariant "`started_at` is non-null iff `active`" holds initially
and is preserved by every operation; `focus_stop` leaves the state inert
(`active = false`, `started_at = none`) and, when stopping an active focus,
adds the elapsed time since `started_at` to `total_focus_time`. -/
theorem focus_invariant (s : AppState) (sites : List Str) (now : Int) (u : Str)
    (fl : Bool) (text : Str) (cats : List (String × Bool))
    (checker : Option Str → Except Str ModerationResult) (pt pu : Option Str) :
    FocusInv initialState.focus ∧
    (FocusInv s.focus → FocusInv (focus_start s sites now).focus) ∧
    FocusInv (focus_stop s now).focus ∧
    (focus_stop s now).focus.active = false ∧
    (focus_stop s now).focus.started_at = none ∧
    (∀ t0 : Int, s.focus.active = true → s.focus.started_at = some t0 →
      (focus_stop s now).focus.total_focus_time
        = s.focus.total_focus_time + (now - t0)) ∧
    (update_usage_stats s u fl now).focus = s.focus ∧
    (record_flagged_message s u text cats now).focus = s.focus ∧
    (moderate checker s pt pu now).2.focus = s.focus := by
  have hstop : (focus_stop s now).focus.active = false ∧
      (focus_stop s now).focus.started_at = none := by
    rcases hA : s.focus.active with _ | _ <;> rcases hT : s.focus.started_at with _ | t0 <;>
      simp [focus_stop, hA, hT]
  have hmodf : (moderate checker s pt pu now).2.focus = s.focus := by
    rcases hc : checker (some (pt.getD [])) with e | r
    · have hmod : moderate checker s pt pu now = (.err e, s) := by
        simp only [moderate, hc]
      rw [hmod]
    · have hmod : (moderate checker s pt pu now).2
          = update_usage_stats
              (if r.flagged then record_flagged_message s (userOrApi pu) (pt.getD [])
                 r.categories now else s)
              (userOrApi pu) r.flagged now := by
        simp only [moderate, hc]
      rw [hmod, update_usage_stats_focus]
      rcases hf : r.flagged with _ | _
      · rw [if_neg (by simp)]
      · rw [if_pos rfl]
        exact (record_flagged_message_others s (userOrApi pu) (pt.getD []) _ now).2.2.2.2
  refine ⟨rfl, ?_, ?_, hstop.1, hstop.2, ?_, update_usage_stats_focus s u fl now,
    (record_flagged_message_others s u text cats now).2.2.2.2, hmodf⟩
  · intro hInv
    rcases hA : s.focus.active with _ | _
    · simp [focus_start, hA, FocusInv]
    · simp only [FocusInv] at hInv ⊢
      simp [focus_start, hA, hInv, hA ▸ hInv]
  · simp [FocusInv, hstop.1, hstop.2]
  · intro t0 hA hT
    simp [focus_stop, hA, hT]

/-- Witness for `focus_invariant`: start at time 10, stop at time 25,
accumulating 15 seconds. -/
theorem focus_invariant_witness :
    FocusInv (focus_start initialState [] 10).focus ∧
    (focus_stop (focus_start initialState [] 10) 25).focus.total_focus_time
      = (focus_start initialState [] 10).focus.total_focus_time + (25 - 10) :=
  ⟨(focus_invariant initialState [] 10 [] false [] [] realChecker none none).2.1 (by decide),
   (focus_invariant (focus_start initialState [] 10) [] 25 [] false [] []
      realChecker none none).2.2.2.2.2.1 10 (by decide) (by decide)⟩

/-- C8: `/moderate` on checker failure answers 503 with the error message and
leaves the state (counters, users, histories, focus) completely unchanged; on
success it answers 200 with the result, increments `total_messages`,
increments `flagged_messages` exactly when flagged, and appends to the
flagged log exactly when the result is flagged. -/
theorem moderate_behavior (checker : Option Str → Except Str ModerationResult)
    (s : AppState) (t u : Option Str) (now : Int) :
    (∀ e, checker (some (t.getD [])) = .error e →
      moderate checker s t u now = (.err e, s) ∧
      statusCode (moderate checker s t u now).1 = 503) ∧
    (∀ r, checker (some (t.getD [])) = .ok r →
      (moderate checker s t u now).1 = .ok r ∧
      statusCode (moderate checker s t u now).1 = 200 ∧
      (moderate checker s t u now).2.total_messages = s.total_messages + 1 ∧
      (moderate checker s t u now).2.flagged_messages
        = s.flagged_messages + (if r.flagged then 1 else 0) ∧
      (r.flagged = false →
        (moderate checker s t u now).2.flagged_history = s.flagged_history) ∧
      (r.flagged = true →
        (moderate checker s t u now).2.flagged_history
          = (record_flagged_message s (userOrApi u) (t.getD []) r.categories now).flagged_history)) := by
  constructor
  · intro e he
    have hmod : moderate checker s t u now = (.err e, s) := by
      simp only [moderate, he]
    exact ⟨hmod, by rw [hmod]; rfl⟩
  · intro r hr
    have hmod : moderate checker s t u now =
        (.ok r,
         update_usage_stats
           (if r.flagged then record_flagged_message s (userOrApi u) (t.getD []) r.categories now
            else s)
           (userOrApi u) r.flagged now) := by
      simp only [moderate, hr]
    rw [hmod]
    refine ⟨rfl, rfl, ?_, ?_, ?_, ?_⟩
    · rcases hf : r.flagged with _ | _ <;>
        simp [hf, update_usage_stats_total,
          (record_flagged_message_others s (userOrApi u) (t.getD []) r.categories now).1]
    · rcases hf : r.flagged with _ | _ <;>
        simp [hf, update_usage_stats_flagged,
          (record_flagged_message_others s (userOrApi u) (t.getD []) r.categories now).2.1]
    · intro hf
      simp [hf, update_usage_stats_flagged_history]
    · intro hf
      simp [hf, update_usage_stats_flagged_history]

/-- Witness for `moderate_behavior`: a failing checker answers 503 and leaves
the initial state untouched; the repository's real checker answers 200. -/
theorem moderate_behavior_witness :
    moderate (fun _ => .error (pstr "moderation unavailable")) initialState
        (some (pstr "hi")) none 0
      = (.err (pstr "moderation unavailable"), initialState) ∧
    statusCode (moderate (fun _ => .error (pstr "moderation unavailable")) initialState
        (some (pstr "hi")) none 0).1 = 503 ∧
    (moderate realChecker initialState (some (pstr "hi")) none 0).1
      = .ok (check_message_safety (some (pstr "hi"))) ∧
    (moderate realChecker initialState (some (pstr "hi")) none 0).2.total_messages
      = initialState.total_messages + 1 :=
  ⟨((moderate_behavior (fun _ => .error (pstr "moderation unavailable")) initialState
      (some (pstr "hi")) none 0).1 (pstr "moderation unavailable") rfl).1,
   ((moderate_behavior (fun _ => .error (pstr "moderation unavailable")) initialState
      (some (pstr "hi")) none 0).1 (pstr "moderation unavailable") rfl).2,
   ((moderate_behavior realChecker initialState (some (pstr "hi")) none 0).2
      (check_message_safety (some (pstr "hi"))) rfl).1,
   ((moderate_behavior realChecker initialState (some (pstr "hi")) none 0).2
      (check_message_safety (some (pstr "hi"))) rfl).2.2.1⟩

/-! ## Normalization lemmas (for C9) -/

/-- Lower-casing a code point twice is the same as once. -/
theorem lowerChar_idem (n : Nat) : lowerChar (lowerChar n) = lowerChar n := by
  simp only [lowerChar]
  by_cases h : 65 ≤ n ∧ n ≤ 90
  · rw [if_pos h, if_neg (by omega)]
  · rw [if_neg h, if_neg h]

/-- Lower-casing never changes whether a code point is whitespace. -/
theorem isWsChar_lowerChar (n : Nat) : isWsChar (lowerChar n) = isWsChar n := by
  simp only [lowerChar]
  by_cases h : 65 ≤ n ∧ n ≤ 90
  · rw [if_pos h]
    simp only [isWsChar]
    exact decide_eq_decide.mpr (by omega)
  · rw [if_neg h]

/-- `dropWhile` is idempotent. -/
theorem dropWhile_idem {α : Type} (p : α → Bool) (l : List α) :
    (l.dropWhile p).dropWhile p = l.dropWhile p := by
  induction l with
  | nil => rfl
  | cons a l ih =>
    rw [List.dropWhile_cons]
    by_cases hp : p a = true
    · rw [if_pos hp]; exact ih
    · rw [if_neg hp, List.dropWhile_cons, if_neg hp]

/-- A prefix of a list that `dropWhile` leaves alone is itself left alone. -/
theorem dropWhile_eq_self_of_prefix {α : Type} (p : α → Bool) {s a : List α}
    (hpre : s <+: a) (ha : a.dropWhile p = a) : s.dropWhile p = s := by
  cases s with
  | nil => rfl
  | cons x xs =>
    obtain ⟨t2, ht⟩ := hpre
    rcases hx : p x with _ | _
    · rw [List.dropWhile_cons, hx]
      simp
    · exfalso
      rw [← ht, List.cons_append, List.dropWhile_cons, if_pos hx] at ha
      have hlen := congrArg List.length ha
      have hle := List.IsSuffix.length_le (List.dropWhile_suffix (l := xs ++ t2) p)
      simp only [List.length_cons, List.length_append] at hlen hle
      omega

/-- Stripping is idempotent. -/
theorem pyStrip_idem (l : Str) : pyStrip (pyStrip l) = pyStrip l := by
  unfold pyStrip
  set a := l.dropWhile isWsChar with ha
  set b := a.reverse.dropWhile isWsChar with hb
  have hba : b <:+ a.reverse := hb ▸ List.dropWhile_suffix _
  have hsa : b.reverse <+: a := List.reverse_suffix.mp (by simpa using hba)
  have haa : a.dropWhile isWsChar = a := by rw [ha]; exact dropWhile_idem _ _
  have hbb : b.dropWhile isWsChar = b := by rw [hb]; exact dropWhile_idem _ _
  have hss : b.reverse.dropWhile isWsChar = b.reverse :=
    dropWhile_eq_self_of_prefix _ hsa haa
  rw [hss]
  simp [hbb]

/-- Stripping commutes with lower-casing. -/
theorem pyLower_strip_comm (l : Str) : pyStrip (pyLower l) = pyLower (pyStrip l) := by
  have hfun : isWsChar ∘ lowerChar = isWsChar := funext isWsChar_lowerChar
  unfold pyStrip pyLower
  rw [List.dropWhile_map, hfun, ← List.map_reverse, List.dropWhile_map, hfun,
    ← List.map_reverse]

/-- Lower-casing is idempotent. -/
theorem pyLower_idem (l : Str) : pyLower (pyLower l) = pyLower l := by
  unfold pyLower
  rw [List.map_map]
  exact List.map_congr_left (fun a _ => lowerChar_idem a)

/-- Normalization is idempotent. -/
theorem pyNormalize_idem (t : Option Str) :
    pyNormalize (some (pyNormalize t)) = pyNormalize t := by
  unfold pyNormalize
  simp only [Option.getD_some]
  rw [pyLower_strip_comm, pyStrip_idem, pyLower_idem]

/-- C9: `check_message_safety` is invariant under pre-trimming and
pre-lower-casing its input — feeding it the normalized text gives exactly the
same result as feeding it the raw text. -/
theorem checkSafety_normalize_invariant (t : Option Str) :
    check_message_safety (some (pyNormalize t)) = check_message_safety t := by
  simp only [check_message_safety, pyNormalize_idem]

/-! ## `/stats` counting (for C1) -/

/-- One `/moderate` request with the repository's checker: effect on counters
and message history. -/
theorem moderate_real_step (s : AppState) (t u : Option Str) :
    (moderate realChecker s t u 0).2.total_messages = s.total_messages + 1 ∧
    (moderate realChecker s t u 0).2.flagged_messages
      = s.flagged_messages + (if reqFlagged (t, u) then 1 else 0) ∧
    (moderate realChecker s t u 0).2.message_history
      = if (s.message_history ++ [mkHistEntry (userOrApi u) (reqFlagged (t, u)) 0]).length > 1000
        then (s.message_history ++ [mkHistEntry (userOrApi u) (reqFlagged (t, u)) 0]).tail
        else s.message_history ++ [mkHistEntry (userOrApi u) (reqFlagged (t, u)) 0] := by
  have hmod : (moderate realChecker s t u 0).2
      = update_usage_stats
          (if (check_message_safety (some (t.getD []))).flagged
           then record_flagged_message s (userOrApi u) (t.getD [])
                  (check_message_safety (some (t.getD []))).categories 0
           else s)
          (userOrApi u) (check_message_safety (some (t.getD []))).flagged 0 := by
    simp only [moderate, realChecker]
  have hrf : reqFlagged (t, u) = (check_message_safety (some (t.getD []))).flagged := rfl
  rw [hrf, hmod]
  rcases hf : (check_message_safety (some (t.getD []))).flagged with _ | _
  · rw [if_neg (by simp)]
    exact ⟨update_usage_stats_total _ _ _ _,
      by rw [update_usage_stats_flagged],
      update_usage_stats_history _ _ _ _⟩
  · rw [if_pos rfl]
    refine ⟨?_, ?_, ?_⟩
    · rw [update_usage_stats_total,
        (record_flagged_message_others s (userOrApi u) (t.getD []) _ 0).1]
    · rw [update_usage_stats_flagged,
        (record_flagged_message_others s (userOrApi u) (t.getD []) _ 0).2.1]
    · rw [update_usage_stats_history,
        (record_flagged_message_others s (userOrApi u) (t.getD []) _ 0).2.2.1]

/-- The raw `_usage_stats` counters after a batch of `/moderate` requests:
`total_messages` counts every request, `flagged_messages` the flagged ones. -/
theorem runRequests_counters (reqs : List (Option Str × Option Str)) :
    ∀ s : AppState,
      (runRequests s reqs).total_messages = s.total_messages + reqs.length ∧
      (runRequests s reqs).flagged_messages = s.flagged_messages + reqs.countP reqFlagged := by
  induction reqs with
  | nil => intro s; rw [runRequests]; simp
  | cons r rest ih =>
    intro s
    rcases r with ⟨t, u⟩
    rw [runRequests]
    obtain ⟨ht, hf, -⟩ := moderate_real_step s t u
    obtain ⟨iht, ihf⟩ := ih (moderate realChecker s t u 0).2
    constructor
    · rw [iht, ht, List.length_cons]; omega
    · rw [ihf, hf, List.countP_cons, Nat.add_assoc,
        Nat.add_comm (if reqFlagged (t, u) then 1 else 0)]

/-- The length of the retained message history is the request count capped at
1000. -/
theorem runRequests_histlen (reqs : List (Option Str × Option Str)) :
    ∀ s : AppState, s.message_history.length ≤ 1000 →
      (runRequests s reqs).message_history.length
        = min (s.message_history.length + reqs.length) 1000 := by
  induction reqs with
  | nil => intro s h; rw [runRequests]; simp only [List.length_nil, Nat.add_zero]; omega
  | cons r rest ih =>
    intro s h
    rcases r with ⟨t, u⟩
    rw [runRequests]
    have hh := (moderate_real_step s t u).2.2
    have hlen1 : (moderate realChecker s t u 0).2.message_history.length
        = min (s.message_history.length + 1) 1000 := by
      rw [hh]
      by_cases hc : (s.message_history
          ++ [mkHistEntry (userOrApi u) (reqFlagged (t, u)) 0]).length > 1000
      · rw [if_pos hc]
        rw [List.length_tail]
        simp only [List.length_append, List.length_singleton] at hc ⊢
        omega
      · rw [if_neg hc]
        simp only [List.length_append, List.length_singleton] at hc ⊢
        omega
    rw [ih (moderate realChecker s t u 0).2 (by rw [hlen1]; omega), hlen1, List.length_cons]
    omega

/-- While no more than 1000 messages have been processed, the history retains
every request's entry in order. -/
theorem runRequests_hist_no_evict (reqs : List (Option Str × Option Str)) :
    ∀ s : AppState, s.message_history.length + reqs.length ≤ 1000 →
      (runRequests s reqs).message_history
        = s.message_history
          ++ reqs.map (fun r => mkHistEntry (userOrApi r.2) (reqFlagged r) 0) := by
  induction reqs with
  | nil => intro s h; rw [runRequests]; simp
  | cons r rest ih =>
    intro s h
    rcases r with ⟨t, u⟩
    rw [runRequests]
    simp only [List.length_cons] at h
    have hh := (moderate_real_step s t u).2.2
    have hcond : ¬ ((s.message_history
        ++ [mkHistEntry (userOrApi u) (reqFlagged (t, u)) 0]).length > 1000) := by
      simp only [List.length_append, List.length_singleton]
      omega
    rw [if_neg hcond] at hh
    rw [ih (moderate realChecker s t u 0).2
      (by rw [hh]; simp only [List.length_append, List.length_singleton]; omega), hh]
    simp

/-- C1 (amended): after N `/moderate` requests, F of which are flagged, the
raw usage counters hold exactly N and F (and only ever grow), but `GET /stats`
derives its numbers from the bounded message history: it reports
`total_messages = min(N, 1000)` and, as long as N ≤ 1000, `flagged_messages
= F`; beyond 1000 processed messages the reported numbers no longer equal N
and F. -/
theorem statsEndpoint_counts (reqs : List (Option Str × Option Str)) :
    (runRequests initialState reqs).total_messages = reqs.length ∧
    (runRequests initialState reqs).flagged_messages = reqs.countP reqFlagged ∧
    (stats (runRequests initialState reqs) 0).total_messages = min reqs.length 1000 ∧
    (reqs.length ≤ 1000 →
      (stats (runRequests initialState reqs) 0).flagged_messages = reqs.countP reqFlagged) := by
  obtain ⟨h1, h2⟩ := runRequests_counters reqs initialState
  refine ⟨by simpa [initialState] using h1, by simpa [initialState] using h2, ?_, ?_⟩
  · have hl := runRequests_histlen reqs initialState (by simp [initialState])
    show (runRequests initialState reqs).message_history.length = min reqs.length 1000
    simpa [initialState] using hl
  · intro hle
    have hh := runRequests_hist_no_evict reqs initialState (by simpa [initialState] using hle)
    show ((runRequests initialState reqs).message_history.filter
        (fun e => e.flagged)).length = reqs.countP reqFlagged
    rw [hh]
    simp only [initialState, List.nil_append]
    rw [← List.countP_eq_length_filter, List.countP_map]
    rfl

/-- Witness for `statsEndpoint_counts`: two requests, one flagged. -/
theorem statsEndpoint_counts_witness :
    (runRequests initialState
        [(some (pstr "kill myself"), none), (some (pstr "hello"), none)]).total_messages = 2 ∧
    (runRequests initialState
        [(some (pstr "kill myself"), none), (some (pstr "hello"), none)]).flagged_messages
      = [(some (pstr "kill myself"), none), (some (pstr "hello"), none)].countP reqFlagged ∧
    (stats (runRequests initialState
        [(some (pstr "kill myself"), none), (some (pstr "hello"), none)]) 0).flagged_messages
      = [(some (pstr "kill myself"), none), (some (pstr "hello"), none)].countP reqFlagged :=
  ⟨(statsEndpoint_counts _).1,
   (statsEndpoint_counts _).2.1,
   (statsEndpoint_counts _).2.2.2 (by decide)⟩

/-- `/stats` reports the length of the retained history as `total_messages`. -/
theorem stats_total_messages_def (s : AppState) (now : Int) :
    (stats s now).total_messages = s.message_history.length := rfl

/-- C1 counterexample: after 1001 processed messages, `GET /stats` reports
`total_messages = 1000`, not 1001 — the endpoint reads the bounded history,
not the ever-growing counters. -/
theorem statsEndpoint_total_capped :
    (stats (runRequests initialState
        (List.replicate 1001 (some (pstr "hello"), none))) 0).total_messages = 1000 ∧
    (1000 : Nat) ≠ 1001 := by
  constructor
  · have hl := runRequests_histlen (List.replicate 1001 (some (pstr "hello"), none))
      initialState (by simp [initialState])
    rw [stats_total_messages_def, hl, List.length_replicate]
    decide
  · decide
